import Mathlib

/- Shallow embedding of the CloudFront origin prefix-list refresh engine
(cloudfront_origin_pl.go): CIDR parsing, name resolution, paged entry
fetching with deduplication, the snapshot install policy, the reader copy
semantics, and small transition systems for the reader/writer lock and the
background refresh loop. -/

namespace CFOriginPL

/-- Parsed address+mask pair, the model of a `netip.Prefix` holding an IPv4
address (four octets) and a mask length. -/
structure Pfx where
  a : Nat
  b : Nat
  c : Nat
  d : Nat
  bits : Nat
  deriving DecidableEq, Repr

/-- Splits a character list on a separator, keeping empty segments (used to
break a CIDR string at the slash and the address at the dots). -/
def splitCh (sep : Char) : List Char → List (List Char)
  | [] => [[]]
  | c :: rest =>
    let r := splitCh sep rest
    if c = sep then [] :: r
    else
      match r with
      | [] => [[c]]
      | g :: gs => (c :: g) :: gs

/-- Decimal parse of a digit string: `none` unless nonempty and all digits. -/
def parseDec (cs : List Char) : Option Nat :=
  if cs = [] then none
  else if cs.all (fun ch => ch.isDigit) then
    some (cs.foldl (fun n ch => 10 * n + (ch.toNat - 48)) 0)
  else none

/-- Rejects numerals with a superfluous leading zero, as `netip` does. -/
def noLeadZero : List Char → Bool
  | '0' :: _ :: _ => false
  | _ => true

/-- One dotted-quad octet: decimal, no leading zero, at most 255. -/
def parseOctet (cs : List Char) : Option Nat :=
  match parseDec cs with
  | none => none
  | some n => if noLeadZero cs = true ∧ n ≤ 255 then some n else none

/-- Model of Go `net/netip.ParsePrefix` on the IPv4 CIDR strings exercised
here: a dotted quad (each octet 0-255, no leading zeros), a single slash,
then a mask length 0-32 written without leading zeros or signs; anything
else fails to parse. -/
def parsePfx (s : String) : Option Pfx :=
  match splitCh '/' s.toList with
  | [addr, bitsCs] =>
    (match splitCh '.' addr with
     | [o1, o2, o3, o4] =>
       (match parseOctet o1, parseOctet o2, parseOctet o3, parseOctet o4,
           parseDec bitsCs with
        | some x, some y, some z, some w, some n =>
          if noLeadZero bitsCs = true ∧ n ≤ 32 then some (Pfx.mk x y z w n)
          else none
        | _, _, _, _, _ => none)
     | _ => none)
  | _ => none

/-- Parsed IPv6 prefix: the eight 16-bit groups of the address and the mask
length (model of a `netip.Prefix` holding an IPv6 address). -/
structure Pfx6 where
  groups : List Nat
  bits : Nat
  deriving DecidableEq, Repr

/-- Hexadecimal digit test, either case. -/
def isHexDigitCh (c : Char) : Bool :=
  if c.isDigit then true
  else if 'a' ≤ c ∧ c ≤ 'f' then true
  else if 'A' ≤ c ∧ c ≤ 'F' then true
  else false

/-- Value of one hexadecimal digit (either case). -/
def hexVal (c : Char) : Nat :=
  if c.isDigit then c.toNat - 48
  else if 'a' ≤ c ∧ c ≤ 'f' then c.toNat - 87
  else c.toNat - 55

/-- One 16-bit IPv6 group: one to four hexadecimal digits; `netip` accepts
uppercase digits and leading zeros inside a group. -/
def parseGroup (cs : List Char) : Option Nat :=
  if cs = [] then none
  else if cs.length ≤ 4 ∧ cs.all (fun c => isHexDigitCh c) = true then
    some (cs.foldl (fun n c => 16 * n + hexVal c) 0)
  else none

/-- Splits an IPv6 address at its first `::`, when present. -/
def splitDoubleColon : List Char → Option (List Char × List Char)
  | [] => none
  | ':' :: ':' :: rest => some ([], rest)
  | c :: rest =>
    match splitDoubleColon rest with
    | none => none
    | some (l, r) => some (c :: l, r)

/-- Parses a colon-separated group list; empty input means zero groups, and
any empty segment (stray or second `::`, stray colon) is rejected. -/
def parseGroups (cs : List Char) : Option (List Nat) :=
  if cs = [] then some []
  else
    let segs := splitCh ':' cs
    if segs.all (fun g => (parseGroup g).isSome) = true then
      some (segs.filterMap parseGroup)
    else none

/-- Model of the IPv6 branch of `net/netip.ParseAddr`, without zones or
embedded dotted-quad forms: eight colon-separated groups, or fewer with one
`::` standing for the missing zero groups (at least one). -/
def parseAddr6 (cs : List Char) : Option (List Nat) :=
  match splitDoubleColon cs with
  | none =>
    (match parseGroups cs with
     | some gs => if gs.length = 8 then some gs else none
     | none => none)
  | some (l, r) =>
    match parseGroups l, parseGroups r with
    | some gl, some gr =>
      if gl.length + gr.length ≤ 7 then
        some (gl ++ List.replicate (8 - gl.length - gr.length) 0 ++ gr)
      else none
    | _, _ => none

/-- Model of `net/netip.ParsePrefix` on IPv6 CIDR strings (no zone, no
embedded dotted quad): address as in `parseAddr6`, a slash, then a mask
length 0-128 written without leading zeros or signs. -/
def parsePfx6 (s : String) : Option Pfx6 :=
  match splitCh '/' s.toList with
  | [addr, bitsCs] =>
    (match parseAddr6 addr, parseDec bitsCs with
     | some gs, some n =>
       if noLeadZero bitsCs = true ∧ n ≤ 128 then some ⟨gs, n⟩ else none
     | _, _ => none)
  | _ => none

/-- Lowercase hexadecimal numeral of a group without leading zeros. -/
def hexStr (n : Nat) : String :=
  String.mk (Nat.toDigits 16 n)

/-- Maximal runs of zero groups as (start index, length) pairs. -/
def zeroRuns : List Nat → Nat → List (Nat × Nat)
  | [], _ => []
  | 0 :: rest, i =>
    (match zeroRuns rest (i + 1) with
     | (j, l) :: rs => if j = i + 1 then (i, l + 1) :: rs else (i, 1) :: (j, l) :: rs
     | [] => [(i, 1)])
  | _ :: rest, i => zeroRuns rest (i + 1)

/-- Leftmost longest run of zero groups of length at least two, when one
exists (RFC 5952 compression rule, as `netip.Addr.String` applies it). -/
def bestZeroRun (gs : List Nat) : Option (Nat × Nat) :=
  (zeroRuns gs 0).foldl
    (fun acc r =>
      match acc with
      | none => if r.2 ≥ 2 then some r else none
      | some b => if r.2 > b.2 then some r else some b) none

/-- Canonical textual form of eight IPv6 groups: lowercase hexadecimal with
the leftmost longest zero run (of length at least two) compressed to `::`. -/
def canonGroups (gs : List Nat) : String :=
  match bestZeroRun gs with
  | none => String.intercalate ":" (gs.map hexStr)
  | some (i, l) =>
    String.intercalate ":" ((gs.take i).map hexStr) ++ "::"
      ++ String.intercalate ":" ((gs.drop (i + l)).map hexStr)

/-- Model of `netip.Prefix.String` for IPv6: the canonical address form, a
slash, and the decimal mask length. -/
def canonStr6 (p : Pfx6) : String :=
  canonGroups p.groups ++ "/" ++ Nat.repr p.bits

/-- One page of `GetManagedPrefixListEntries` output: entries each carrying
an optional CIDR string (`Entry.Cidr` is a `*string`), and an optional
`NextToken`. -/
structure Page where
  entries : List (Option String)
  nextToken : Option String
  deriving DecidableEq

/-- One candidate from `DescribeManagedPrefixLists`: optional name and id
pointers. -/
structure PLCandidate where
  listName : Option String
  listId : Option String
  deriving DecidableEq

/-- Failures of name resolution (`resolvePrefixListID`). -/
inductive ResolveErr
  | describeErr (msg : String)
  | notFound (name region : String)
  deriving DecidableEq

/-- Failures of a whole refresh pass (`refreshOnce`). -/
inductive RefreshErr
  | awsCfgErr (msg : String)
  | fetchErr (id msg : String)
  | fatalEmpty
  deriving DecidableEq

/-- Model of `pageTokenOrNil`: a nil or empty token is normalised to nil. -/
def pageTokenOrNil (t : Option String) : Option String :=
  match t with
  | none => none
  | some s => if s = "" then none else some s

/-- Scan of the described candidates inside `resolvePrefixListID`: accept
the first candidate whose (present) name equals `n` exactly and whose id is
present; otherwise report the not-found error naming `n` and the region. -/
def findExactMatch (n region : String) : List PLCandidate → Except ResolveErr String
  | [] => .error (.notFound n region)
  | pl :: rest =>
    match pl.listName, pl.listId with
    | some pn, some pid => if pn = n then .ok pid else findExactMatch n region rest
    | _, _ => findExactMatch n region rest

/-- Model of `resolvePrefixListID`, returning the resolution result together
with the number of `DescribeManagedPrefixLists` calls issued (0 or 1): an
explicit id is returned immediately and verbatim; otherwise the configured
or default name is looked up and scanned for an exact match. -/
def resolvePrefixListID (describe : String → Except String (List PLCandidate))
    (region explicitID name defaultName : String) :
    Except ResolveErr String × Nat :=
  if explicitID = "" then
    let n := if name = "" then defaultName else name
    match describe n with
    | .error e => (.error (.describeErr e), 1)
    | .ok pls => (findExactMatch n region pls, 1)
  else (.ok explicitID, 0)

/-- Processing of one fetched entry inside the paging loop of `refreshOnce`:
skip a nil CIDR pointer, skip a CIDR string already seen (`seen[c]` keys on
the raw entry string), skip a string that fails to parse; otherwise record
the string as seen and append the parsed value. The parsed element type is
a parameter, since `netip.Prefix` covers both address families. -/
def processEntry {P : Type} (parse : String → Option P)
    (acc : List String × List P) (e : Option String) :
    List String × List P :=
  match e with
  | none => acc
  | some c =>
    if c ∈ acc.1 then acc
    else
      match parse c with
      | none => acc
      | some p => (c :: acc.1, acc.2 ++ [p])

/-- Fold of `processEntry` over one page's entries. -/
def processEntries {P : Type} (parse : String → Option P)
    (acc : List String × List P) (es : List (Option String)) :
    List String × List P :=
  es.foldl (processEntry parse) acc

/-- Paging loop of `refreshOnce` for a single resolved list: request a page
for the current (normalised) token, abort the pass on a request error,
otherwise accumulate the page's entries and continue until the returned
token is absent or empty. `fuel` bounds the number of requests; `none`
means the bound was exhausted. -/
def fetchEntriesLoop (parse : String → Option Pfx)
    (req : Option String → Except String Page) :
    Nat → Option String → List String × List Pfx →
    Option (Except String (List String × List Pfx))
  | 0, _, _ => none
  | fuel + 1, pageToken, acc =>
    match req (pageTokenOrNil pageToken) with
    | .error e => some (.error e)
    | .ok out =>
      let acc2 := processEntries parse acc out.entries
      match out.nextToken with
      | none => some (.ok acc2)
      | some t =>
        if t = "" then some (.ok acc2)
        else fetchEntriesLoop parse req fuel (some t) acc2

/-- Outer loop of `refreshOnce` over all resolved list ids, threading the
seen-set and accumulated values across lists; a page failure for a list
aborts the whole pass with that id and message. -/
def fetchLists (parse : String → Option Pfx)
    (getEntries : String → Option String → Except String Page) (fuel : Nat) :
    List String → List String × List Pfx →
    Option (Except (String × String) (List String × List Pfx))
  | [], acc => some (.ok acc)
  | id :: rest, acc =>
    match fetchEntriesLoop parse (getEntries id) fuel (some "") acc with
    | none => none
    | some (.error msg) => some (.error (id, msg))
    | some (.ok acc2) => fetchLists parse getEntries fuel rest acc2

/-- Configuration fields of `Source` consumed by a refresh pass. -/
structure Config where
  region : String
  prefixListID : String
  prefixListName : String
  includeIPv6 : Bool
  requireNonEmpty : Bool
  deriving DecidableEq

/-- External collaborators of a refresh pass: the CIDR parser
(`netip.ParsePrefix`), the AWS config loader, and the two EC2 calls. -/
structure Deps where
  parse : String → Option Pfx
  awsCfg : Except String Unit
  describe : String → Except String (List PLCandidate)
  getEntries : String → Option String → Except String Page

/-- Default IPv4 prefix-list name. -/
def defaultPLNameV4 : String := "com.amazonaws.global.cloudfront.origin-facing"

/-- Default IPv6 prefix-list name. -/
def defaultPLNameV6 : String :=
  "com.amazonaws.global.cloudfront.origin-facing-ipv6"

/-- Helper for one resolved id: it is kept only when resolution succeeded
with a nonempty id. -/
def keptId (r : Except ResolveErr String) : List String :=
  match r with
  | .ok id => if id = "" then [] else [id]
  | .error _ => []

/-- The id list a refresh pass fetches: the IPv4 resolution (errors are
logged and skipped), then, when `includeIPv6` is set, the IPv6 resolution by
its default name (errors likewise skipped). -/
def resolvedIds (deps : Deps) (cfg : Config) : List String :=
  keptId (resolvePrefixListID deps.describe cfg.region cfg.prefixListID
      cfg.prefixListName defaultPLNameV4).1
    ++ (if cfg.includeIPv6 then
          keptId (resolvePrefixListID deps.describe cfg.region ""
              defaultPLNameV6 defaultPLNameV6).1
        else [])

/-- Number of `DescribeManagedPrefixLists` calls a refresh pass issues. -/
def describeCallsOf (deps : Deps) (cfg : Config) : Nat :=
  (resolvePrefixListID deps.describe cfg.region cfg.prefixListID
      cfg.prefixListName defaultPLNameV4).2
    + (if cfg.includeIPv6 then
         (resolvePrefixListID deps.describe cfg.region ""
             defaultPLNameV6 defaultPLNameV6).2
       else 0)

/-- Tail of `refreshOnce`: the install policy for a completed fetch. `ok v`
means the pass succeeds with `current` worth `v` afterwards; an empty fetch
keeps a nonempty previous snapshot, is fatal on an empty previous snapshot
under `require_nonempty`, and otherwise installs the empty set. -/
def refreshInstall (requireNonEmpty : Bool) (prev allPrefixes : List Pfx) :
    Except RefreshErr (List Pfx) :=
  if allPrefixes = [] then
    if prev = [] then
      if requireNonEmpty = true then .error .fatalEmpty
      else .ok []
    else .ok prev
  else .ok allPrefixes

/-- Result of one modelled refresh pass: `result` is `none` when the paging
fuel ran out, otherwise the pass's error or the snapshot value current holds
afterwards; `describeCalls` instruments the number of name-lookup calls
issued during the pass. -/
structure RefreshOutcome where
  result : Option (Except RefreshErr (List Pfx))
  describeCalls : Nat

/-- Model of `refreshOnce`: load the AWS config, resolve the ids, fetch and
deduplicate all pages of all lists, then apply the install policy against
the previous snapshot `prev`. -/
def refreshOnce (deps : Deps) (cfg : Config) (fuel : Nat) (prev : List Pfx) :
    RefreshOutcome :=
  match deps.awsCfg with
  | .error msg => ⟨some (.error (.awsCfgErr msg)), 0⟩
  | .ok _ =>
    match fetchLists deps.parse deps.getEntries fuel (resolvedIds deps cfg)
        ([], []) with
    | none => ⟨none, describeCallsOf deps cfg⟩
    | some (.error em) =>
      ⟨some (.error (.fetchErr em.1 em.2)), describeCallsOf deps cfg⟩
    | some (.ok acc) =>
      ⟨some (refreshInstall cfg.requireNonEmpty prev acc.2),
        describeCallsOf deps cfg⟩

/-- Value of `s.current` after a pass: only a successful pass result is
installed; fuel exhaustion or any error leaves the previous snapshot. -/
def newCurrent (r : Option (Except RefreshErr (List Pfx))) (prev : List Pfx) :
    List Pfx :=
  match r with
  | some (.ok v) => v
  | _ => prev

/-- Go channel-close semantics: closing an already-closed channel is a
run-time fault. -/
inductive GoFault
  | closeOfClosedChannel
  deriving DecidableEq

/-- Lifecycle state of a `Source`: `stopCh` is nil (`none`) before
`Provision` installs it, or `some closed` for a made channel. -/
structure LifeState where
  stopCh : Option Bool
  deriving DecidableEq

/-- Model of `close(ch)` on a channel whose closed flag is `closed`. -/
def closeChan (closed : Bool) : Except GoFault Bool :=
  if closed then .error .closeOfClosedChannel else .ok true

/-- Model of `Cleanup`: close `stopCh` whenever it is non-nil. -/
def Cleanup (st : LifeState) : Except GoFault LifeState :=
  match st.stopCh with
  | none => .ok st
  | some b =>
    match closeChan b with
    | .error f => .error f
    | .ok b2 => .ok ⟨some b2⟩

/-- Lifecycle state right after a successful `Provision` made `stopCh`. -/
def provisionedState : LifeState := ⟨some false⟩

/-- First-seen filter describing which entry strings the fetch fold keeps:
an entry string is kept when it is present, not yet seen and parses; kept
strings join the seen set for the rest of the stream. -/
def firstSeenKeys {P : Type} (parse : String → Option P) :
    List String → List (Option String) → List String
  | _, [] => []
  | seen, none :: es => firstSeenKeys parse seen es
  | seen, some c :: es =>
    if c ∈ seen then firstSeenKeys parse seen es
    else
      match parse c with
      | none => firstSeenKeys parse seen es
      | some _ => c :: firstSeenKeys parse (c :: seen) es

/-- Provider whose entry requests always fail (for the failed-pass claims). -/
def failDeps : Deps :=
  ⟨parsePfx, .ok (), fun _ => .ok [], fun _ _ => .error "throttled"⟩

/-- Configuration carrying an explicit list identifier, IPv6 off. -/
def explicitCfg : Config := ⟨"us-east-1", "pl-abc123", "", false, false⟩

/-- Configuration carrying an explicit list identifier with IPv6 on. -/
def v6Cfg : Config := ⟨"us-east-1", "pl-abc123", "", true, false⟩

/-- Provider returning no candidates and empty pages. -/
def okDeps : Deps :=
  ⟨parsePfx, .ok (), fun _ => .ok [], fun _ _ => .ok ⟨[], none⟩⟩

/-- Described candidates: a near-miss name first, then the exact default
IPv4 name. -/
def cfCandidates : List PLCandidate :=
  [⟨some "com.amazonaws.global.cloudfront", some "pl-other"⟩,
   ⟨some defaultPLNameV4, some "pl-3b927c52"⟩]

/-- Provider describing `cfCandidates` for the default IPv4 name. -/
def nameDeps : Deps :=
  ⟨parsePfx, .ok (),
   fun n => if n = defaultPLNameV4 then .ok cfCandidates else .ok [],
   fun _ _ => .ok ⟨[], none⟩⟩

/-- Provider returning one page holding one malformed and two well-formed
entries for the explicitly configured list. -/
def mixedDeps : Deps :=
  ⟨parsePfx, .ok (), fun _ => .ok [],
   fun id tok =>
     if id = "pl-abc123" then
       (if tok = none then
          .ok ⟨[some "1.2.3.4", some "198.51.100.0/24", some "203.0.113.0/24"],
            none⟩
        else .error "unexpected token")
     else .error "unknown list"⟩

/-- Provider resolving the default IPv4 name and returning two pages, with
one entry repeated across the pages and a continuation token between them. -/
def pagedDeps : Deps :=
  ⟨parsePfx, .ok (),
   fun n =>
     if n = defaultPLNameV4 then .ok [⟨some defaultPLNameV4, some "pl-cf01"⟩]
     else .ok [],
   fun id tok =>
     if id = "pl-cf01" then
       (if tok = none then
          .ok ⟨[some "198.51.100.0/24", some "203.0.113.0/24"], some "page2"⟩
        else if tok = some "page2" then
          .ok ⟨[some "203.0.113.0/24", some "192.0.2.0/24"], none⟩
        else .error "bad token")
     else .error "unknown list"⟩

/-- Configuration relying on the default IPv4 name, IPv6 off. -/
def nameCfg : Config := ⟨"us-east-1", "", "", false, false⟩

/-- Heap of slice cells: an index into `arrays` models a Go slice
reference; distinct references never share storage. -/
structure SliceHeap where
  arrays : List (List Pfx)

/-- Allocation of a fresh slice holding `v` (model of `make` followed by
`copy`). -/
def allocSlice (m : SliceHeap) (v : List Pfx) : Nat × SliceHeap :=
  (m.arrays.length, ⟨m.arrays ++ [v]⟩)

/-- Contents of the slice behind reference `r`. -/
def readSlice (m : SliceHeap) (r : Nat) : List Pfx :=
  m.arrays.getD r []

/-- Overwrite of the slice behind reference `r` (a caller mutating a
returned slice in place). -/
def writeSlice (m : SliceHeap) (r : Nat) (v : List Pfx) : SliceHeap :=
  ⟨m.arrays.set r v⟩

/-- Store holding `s.current` as a slice reference. -/
structure StoreRef where
  current : Nat

/-- Model of `GetIPRanges` (and of `snapshot`): allocate a fresh slice,
copy the current contents into it under the read lock, and return the
fresh reference. -/
def GetIPRanges (s : StoreRef) (m : SliceHeap) : Nat × SliceHeap :=
  allocSlice m (readSlice m s.current)

/-- Model of the install `s.current = all`: the store takes the new
reference; no heap cell is written. -/
def installCurrent (r : Nat) : StoreRef := ⟨r⟩

/-- Store of one concrete snapshot used as a witness state. -/
def wStore : StoreRef := ⟨0⟩

/-- Heap holding that one concrete snapshot. -/
def wHeap : SliceHeap := ⟨[[Pfx.mk 192 0 2 0 24]]⟩

/-- Writer phases of the install section of `refreshOnce`:
`mu.Lock(); s.current = all; mu.Unlock()`. -/
inductive WPhase
  | idle
  | locked
  | assigned
  | done
  deriving DecidableEq

/-- Phases of one reader executing `GetIPRanges`: `mu.RLock()`, read a copy
of `current`, `mu.RUnlock()` and return the copy. -/
inductive RPhase
  | start
  | reading
  | got (v : List Pfx)
  | finished (v : List Pfx)
  deriving DecidableEq

/-- Interleaved state of the store, the single installing writer, and any
number of readers, with the `sync.RWMutex` ownership counts. -/
structure RWSys where
  cur : List Pfx
  writer : WPhase
  readers : List RPhase
  readLocks : Nat
  writeLock : Bool
  deriving DecidableEq

/-- One interleaving step: writer lock (exclusive: no reader or writer
holds the lock), the single reference assignment, writer unlock; reader
spawn, reader lock (shared: no writer holds the lock), reader copy of
`cur`, reader unlock returning its copy. `post` is the value the pass
installs. -/
inductive RWStep (post : List Pfx) : RWSys → RWSys → Prop
  | wLock (s : RWSys) :
      s.writer = .idle → s.writeLock = false → s.readLocks = 0 →
      RWStep post s { s with writer := .locked, writeLock := true }
  | wAssign (s : RWSys) :
      s.writer = .locked →
      RWStep post s { s with cur := post, writer := .assigned }
  | wUnlock (s : RWSys) :
      s.writer = .assigned →
      RWStep post s { s with writeLock := false, writer := .done }
  | rSpawn (s : RWSys) :
      RWStep post s { s with readers := s.readers ++ [.start] }
  | rLock (s : RWSys) (i : Nat) :
      s.readers[i]? = some .start → s.writeLock = false →
      RWStep post s
        { s with readers := s.readers.set i .reading,
                 readLocks := s.readLocks + 1 }
  | rRead (s : RWSys) (i : Nat) :
      s.readers[i]? = some .reading →
      RWStep post s { s with readers := s.readers.set i (.got s.cur) }
  | rUnlock (s : RWSys) (i : Nat) (v : List Pfx) :
      s.readers[i]? = some (.got v) →
      RWStep post s
        { s with readers := s.readers.set i (.finished v),
                 readLocks := s.readLocks - 1 }

/-- Initial interleaving state: snapshot `pre` installed, writer not yet
started, `n` readers about to call the accessor, no lock held. -/
def rwInit (pre : List Pfx) (n : Nat) : RWSys :=
  ⟨pre, .idle, List.replicate n .start, 0, false⟩

/-- Reachability of the interleaved system from its initial state. -/
def RWReach (pre post : List Pfx) (n : Nat) (s : RWSys) : Prop :=
  Relation.ReflTransGen (RWStep post) (rwInit pre n) s

/-- Invariant: the stored reference is the pre- or post-install value, and
every copy a reader has taken is one of the two. -/
def RWInv (pre post : List Pfx) (s : RWSys) : Prop :=
  (s.cur = pre ∨ s.cur = post)
  ∧ ∀ v : List Pfx,
      (RPhase.got v ∈ s.readers ∨ RPhase.finished v ∈ s.readers) →
      v = pre ∨ v = post

/-- Final state of a one-reader trace that locked, copied and returned
while the writer stayed idle. -/
def rwFinal : RWSys := ⟨[], .idle, [RPhase.finished []], 0, false⟩

/-- State of the background refresh loop and its ticker and stop channels:
whether the stop channel is closed, whether a tick is pending in the ticker
channel (capacity one), whether the loop has returned, and how many
tick-triggered refresh passes have run and installed. -/
structure Sched where
  stopClosed : Bool
  tickPending : Bool
  exited : Bool
  installs : Nat
  deriving DecidableEq

/-- Steps of the loop `for { select { case <-t.C: refreshOnce; case
<-s.stopCh: return } }` together with its environment: the ticker fires
into its one-slot channel; `Cleanup` closes the stop channel; `select`
takes the tick case whenever a tick is pending (Go chooses uniformly among
ready cases, so this stays enabled while the stop channel is also ready)
and the modelled pass installs; or `select` takes the stop case whenever
the stop channel is closed, and the loop returns. -/
inductive SchedStep : Sched → Sched → Prop
  | tickFire (s : Sched) :
      s.tickPending = false → s.exited = false →
      SchedStep s { s with tickPending := true }
  | closeStop (s : Sched) :
      s.stopClosed = false →
      SchedStep s { s with stopClosed := true }
  | selectTick (s : Sched) :
      s.exited = false → s.tickPending = true →
      SchedStep s { s with tickPending := false, installs := s.installs + 1 }
  | selectStop (s : Sched) :
      s.exited = false → s.stopClosed = true →
      SchedStep s { s with exited := true }

/-- Initial loop state right after `Provision` started the refresher. -/
def schedInit : Sched := ⟨false, false, false, 0⟩

/-- Reachability of the loop system from its initial state. -/
def SchedReach (s : Sched) : Prop :=
  Relation.ReflTransGen SchedStep schedInit s

/-- C1: a completed refresh pass fetching zero entries follows the
three-way install policy: a nonempty previous snapshot is kept unchanged
with success; an empty previous snapshot under require-nonempty yields the
fatal-empty error with nothing installed; an empty previous snapshot
otherwise installs the empty snapshot with success. -/
theorem empty_fetch_install_policy (requireNonEmpty : Bool) (prev : List Pfx)
    (hne : prev ≠ []) :
    refreshInstall requireNonEmpty prev [] = .ok prev
    ∧ refreshInstall true [] [] = .error .fatalEmpty
    ∧ newCurrent (some (.error RefreshErr.fatalEmpty)) [] = []
    ∧ refreshInstall false [] [] = .ok [] := by
  refine ⟨?_, rfl, rfl, rfl⟩
  simp [refreshInstall, hne]

/-- Witness for `empty_fetch_install_policy` at a concrete nonempty previous
snapshot. -/
theorem empty_fetch_install_policy_witness :
    ([Pfx.mk 198 51 100 0 24] ≠ ([] : List Pfx))
    ∧ (refreshInstall true [Pfx.mk 198 51 100 0 24] []
          = .ok [Pfx.mk 198 51 100 0 24]
       ∧ refreshInstall true [] [] = .error .fatalEmpty
       ∧ newCurrent (some (.error RefreshErr.fatalEmpty)) [] = []
       ∧ refreshInstall false [] [] = .ok []) :=
  ⟨by decide, empty_fetch_install_policy true [Pfx.mk 198 51 100 0 24] (by decide)⟩

/-- C5 (code bug): `Cleanup` on a nil stop channel is a no-op, the first
`Cleanup` after `Provision` closes the stop channel, and a second `Cleanup`
then executes `close` on an already-closed channel, which faults in Go —
the stop operation is not idempotent as the specification requires. -/
theorem cleanup_double_invocation_faults :
    Cleanup ⟨none⟩ = .ok ⟨none⟩
    ∧ Cleanup provisionedState = .ok ⟨some true⟩
    ∧ Cleanup ⟨some true⟩ = .error .closeOfClosedChannel :=
  ⟨rfl, rfl, rfl⟩

/-- Soundness of the candidate scan: an identifier is returned only from a
candidate present in the list whose name matches exactly. -/
theorem findExactMatch_sound (n region id : String) :
    ∀ pls : List PLCandidate, findExactMatch n region pls = .ok id →
      ∃ pl ∈ pls, pl.listName = some n ∧ pl.listId = some id := by
  intro pls
  induction pls with
  | nil => intro h; simp [findExactMatch] at h
  | cons pl rest ih =>
    intro h
    rcases hn : pl.listName with _ | pn <;> rcases hi : pl.listId with _ | pid <;>
      simp [findExactMatch, hn, hi] at h
    · obtain ⟨q, hq, h1, h2⟩ := ih h
      exact ⟨q, List.mem_cons_of_mem pl hq, h1, h2⟩
    · obtain ⟨q, hq, h1, h2⟩ := ih h
      exact ⟨q, List.mem_cons_of_mem pl hq, h1, h2⟩
    · obtain ⟨q, hq, h1, h2⟩ := ih h
      exact ⟨q, List.mem_cons_of_mem pl hq, h1, h2⟩
    · by_cases hpn : pn = n
      · rw [if_pos hpn] at h
        cases h
        exact ⟨pl, List.mem_cons_self pl rest, by rw [hn, hpn], by rw [hi]⟩
      · rw [if_neg hpn] at h
        obtain ⟨q, hq, h1, h2⟩ := ih h
        exact ⟨q, List.mem_cons_of_mem pl hq, h1, h2⟩

/-- Completeness of the candidate scan: when no candidate carries the
looked-up name, the scan reports the not-found error with that name and the
region. -/
theorem findExactMatch_notFound (n region : String) :
    ∀ pls : List PLCandidate, (∀ pl ∈ pls, pl.listName ≠ some n) →
      findExactMatch n region pls = .error (.notFound n region) := by
  intro pls
  induction pls with
  | nil => intro _; rfl
  | cons pl rest ih =>
    intro h
    have hrest : ∀ q ∈ rest, q.listName ≠ some n :=
      fun q hq => h q (List.mem_cons_of_mem pl hq)
    have hhead : pl.listName ≠ some n := h pl (List.mem_cons_self pl rest)
    rcases hn : pl.listName with _ | pn <;> rcases hi : pl.listId with _ | pid <;>
      simp [findExactMatch, hn, hi]
    · exact ih hrest
    · exact ih hrest
    · exact ih hrest
    · have hpn : pn ≠ n := by
        intro hcontra
        exact hhead (by rw [hn, hcontra])
      rw [if_neg hpn]
      exact ih hrest

/-- C10: name resolution queries the provider with the configured (or
default) name, scans the returned candidates accepting only an exact name
match and returning that candidate's identifier, and reports the not-found
error carrying the offending name and the region when no candidate carries
that name. -/
theorem resolver_exact_match
    (describe : String → Except String (List PLCandidate))
    (region name defaultName id : String) (pls : List PLCandidate)
    (hd : describe (if name = "" then defaultName else name) = .ok pls) :
    resolvePrefixListID describe region "" name defaultName
      = (findExactMatch (if name = "" then defaultName else name) region pls, 1)
    ∧ (findExactMatch (if name = "" then defaultName else name) region pls
          = .ok id →
        ∃ pl ∈ pls,
          pl.listName = some (if name = "" then defaultName else name)
          ∧ pl.listId = some id)
    ∧ ((∀ pl ∈ pls,
          pl.listName ≠ some (if name = "" then defaultName else name)) →
        resolvePrefixListID describe region "" name defaultName
          = (.error (.notFound (if name = "" then defaultName else name)
              region), 1)) := by
  refine ⟨?_, findExactMatch_sound _ _ _ pls, ?_⟩
  · simp [resolvePrefixListID, hd]
  · intro h
    simp [resolvePrefixListID, hd, findExactMatch_notFound _ _ pls h]

/-- Witness for `resolver_exact_match` on a concrete candidate list holding
a near-miss name and the exact default IPv4 name. -/
theorem resolver_exact_match_witness :
    nameDeps.describe
        (if "" = "" then defaultPLNameV4 else "") = .ok cfCandidates
    ∧ (resolvePrefixListID nameDeps.describe "us-east-1" "" "" defaultPLNameV4
          = (findExactMatch (if "" = "" then defaultPLNameV4 else "")
              "us-east-1" cfCandidates, 1)
       ∧ (findExactMatch (if "" = "" then defaultPLNameV4 else "")
              "us-east-1" cfCandidates = .ok "pl-3b927c52" →
           ∃ pl ∈ cfCandidates,
             pl.listName = some (if "" = "" then defaultPLNameV4 else "")
             ∧ pl.listId = some "pl-3b927c52")
       ∧ ((∀ pl ∈ cfCandidates,
             pl.listName ≠ some (if "" = "" then defaultPLNameV4 else "")) →
           resolvePrefixListID nameDeps.describe "us-east-1" "" ""
               defaultPLNameV4
             = (.error (.notFound (if "" = "" then defaultPLNameV4 else "")
                 "us-east-1"), 1))) :=
  ⟨rfl, resolver_exact_match nameDeps.describe "us-east-1" "" defaultPLNameV4
    "pl-3b927c52" cfCandidates rfl⟩

/-- C4: when any page request of a pass fails, the pass aborts with a fetch
error carrying that list id and message, and nothing is installed: the
previous snapshot is retained unchanged. -/
theorem page_failure_aborts_pass (deps : Deps) (cfg : Config) (fuel : Nat)
    (prev : List Pfx) (id msg : String)
    (hcfg : deps.awsCfg = .ok ())
    (hfetch : fetchLists deps.parse deps.getEntries fuel
        (resolvedIds deps cfg) ([], []) = some (.error (id, msg))) :
    (refreshOnce deps cfg fuel prev).result
        = some (.error (.fetchErr id msg))
    ∧ newCurrent (refreshOnce deps cfg fuel prev).result prev = prev := by
  simp [refreshOnce, hcfg, hfetch, newCurrent]

/-- Witness for `page_failure_aborts_pass` on a provider whose page request
is throttled. -/
theorem page_failure_aborts_pass_witness :
    failDeps.awsCfg = .ok ()
    ∧ fetchLists failDeps.parse failDeps.getEntries 1
        (resolvedIds failDeps explicitCfg) ([], [])
        = some (.error ("pl-abc123", "throttled"))
    ∧ ((refreshOnce failDeps explicitCfg 1 [Pfx.mk 198 51 100 0 24]).result
          = some (.error (.fetchErr "pl-abc123" "throttled"))
       ∧ newCurrent
           (refreshOnce failDeps explicitCfg 1 [Pfx.mk 198 51 100 0 24]).result
           [Pfx.mk 198 51 100 0 24] = [Pfx.mk 198 51 100 0 24]) :=
  ⟨rfl, rfl, page_failure_aborts_pass failDeps explicitCfg 1
    [Pfx.mk 198 51 100 0 24] "pl-abc123" "throttled" rfl rfl⟩

/-- C8 counterexample: with an explicit list identifier configured but
include-ipv6 set, a refresh pass still issues one name-lookup call (for the
IPv6 list), refuting "zero calls for every configuration with an explicit
identifier". -/
theorem explicit_id_with_ipv6_calls_lookup :
    v6Cfg.prefixListID ≠ ""
    ∧ (refreshOnce failDeps v6Cfg 1 []).describeCalls = 1 :=
  ⟨by decide, rfl⟩

/-- C8 (amended): with an explicit list identifier configured and
include-ipv6 not set, a refresh pass issues zero name-lookup calls, and the
resolver returns the identifier immediately and verbatim with no describe
call. -/
theorem explicit_id_bypasses_lookup (deps : Deps) (cfg : Config) (fuel : Nat)
    (prev : List Pfx) (hid : cfg.prefixListID ≠ "")
    (hv6 : cfg.includeIPv6 = false) :
    (refreshOnce deps cfg fuel prev).describeCalls = 0
    ∧ resolvePrefixListID deps.describe cfg.region cfg.prefixListID
        cfg.prefixListName defaultPLNameV4 = (.ok cfg.prefixListID, 0) := by
  have hcalls : describeCallsOf deps cfg = 0 := by
    simp [describeCallsOf, resolvePrefixListID, hid, hv6]
  constructor
  · cases h : deps.awsCfg with
    | error msg => simp [refreshOnce, h]
    | ok u =>
      cases hf : fetchLists deps.parse deps.getEntries fuel
          (resolvedIds deps cfg) ([], []) with
      | none => simp [refreshOnce, h, hf, hcalls]
      | some r => cases r <;> simp [refreshOnce, h, hf, hcalls]
  · simp [resolvePrefixListID, hid]

/-- Witness for `explicit_id_bypasses_lookup` on a concrete explicit-id
configuration. -/
theorem explicit_id_bypasses_lookup_witness :
    explicitCfg.prefixListID ≠ ""
    ∧ explicitCfg.includeIPv6 = false
    ∧ ((refreshOnce okDeps explicitCfg 1 []).describeCalls = 0
       ∧ resolvePrefixListID okDeps.describe explicitCfg.region
           explicitCfg.prefixListID explicitCfg.prefixListName defaultPLNameV4
           = (.ok explicitCfg.prefixListID, 0)) :=
  ⟨by decide, rfl,
    explicit_id_bypasses_lookup okDeps explicitCfg 1 [] (by decide) rfl⟩

/-- C7: the entry fetcher silently skips any entry whose string fails to
parse (for every parser, string and accumulator); concretely, a pass with
one malformed and two well-formed entries installs a snapshot of exactly the
two parsed values with no error, and a pass whose resolved list returns a
first page with entries A and B plus a continuation token, then a second
page with entries B and C and no token, installs exactly the three distinct
values with B deduplicated. -/
theorem fetcher_skips_malformed_and_pages (parse : String → Option Pfx)
    (c : String) (acc : List String × List Pfx) (hbad : parse c = none) :
    processEntry parse acc (some c) = acc
    ∧ (refreshOnce mixedDeps explicitCfg 2 []).result
        = some (.ok [Pfx.mk 198 51 100 0 24, Pfx.mk 203 0 113 0 24])
    ∧ (refreshOnce pagedDeps nameCfg 2 []).result
        = some (.ok [Pfx.mk 198 51 100 0 24, Pfx.mk 203 0 113 0 24,
            Pfx.mk 192 0 2 0 24]) := by
  refine ⟨?_, rfl, rfl⟩
  by_cases hm : c ∈ acc.1 <;> simp [processEntry, hbad, hm]

/-- Witness for `fetcher_skips_malformed_and_pages` at the concrete
malformed string of the mixed page. -/
theorem fetcher_skips_malformed_and_pages_witness :
    parsePfx "1.2.3.4" = none
    ∧ (processEntry parsePfx ([], []) (some "1.2.3.4") = ([], [])
       ∧ (refreshOnce mixedDeps explicitCfg 2 []).result
           = some (.ok [Pfx.mk 198 51 100 0 24, Pfx.mk 203 0 113 0 24])
       ∧ (refreshOnce pagedDeps nameCfg 2 []).result
           = some (.ok [Pfx.mk 198 51 100 0 24, Pfx.mk 203 0 113 0 24,
               Pfx.mk 192 0 2 0 24])) :=
  ⟨rfl, fetcher_skips_malformed_and_pages parsePfx "1.2.3.4" ([], []) rfl⟩

/-- The fetch fold in closed form: the seen-set grows by the kept keys and
the accumulated values grow by exactly the parses of the kept keys, in
first-seen order. -/
theorem processEntries_eq {P : Type} (parse : String → Option P) :
    ∀ (es : List (Option String)) (seen : List String) (acc : List P),
      processEntries parse (seen, acc) es
        = ((firstSeenKeys parse seen es).reverse ++ seen,
           acc ++ (firstSeenKeys parse seen es).filterMap parse) := by
  intro es
  induction es with
  | nil => intro seen acc; simp [processEntries, firstSeenKeys]
  | cons e rest ih =>
    intro seen acc
    have hfold : processEntries parse (seen, acc) (e :: rest)
        = processEntries parse (processEntry parse (seen, acc) e) rest := rfl
    cases e with
    | none =>
      rw [hfold]
      simp only [processEntry]
      rw [ih seen acc]
      simp [firstSeenKeys]
    | some c =>
      by_cases hc : c ∈ seen
      · rw [hfold]
        simp only [processEntry, if_pos hc]
        rw [ih seen acc]
        simp [firstSeenKeys, hc]
      · cases hp : parse c with
        | none =>
          rw [hfold]
          simp only [processEntry, if_neg hc, hp]
          rw [ih seen acc]
          simp [firstSeenKeys, hc, hp]
        | some p =>
          rw [hfold]
          simp only [processEntry, if_neg hc, hp]
          rw [ih (c :: seen) (acc ++ [p])]
          simp [firstSeenKeys, hc, hp, List.filterMap_cons, List.append_assoc]

/-- The kept keys avoid the starting seen-set and are pairwise distinct. -/
theorem firstSeenKeys_nodup {P : Type} (parse : String → Option P) :
    ∀ (es : List (Option String)) (seen : List String),
      (∀ c ∈ firstSeenKeys parse seen es, c ∉ seen)
      ∧ (firstSeenKeys parse seen es).Nodup := by
  intro es
  induction es with
  | nil => intro seen; simp [firstSeenKeys]
  | cons e rest ih =>
    intro seen
    cases e with
    | none => simpa [firstSeenKeys] using ih seen
    | some c =>
      by_cases hc : c ∈ seen
      · simpa [firstSeenKeys, hc] using ih seen
      · cases hp : parse c with
        | none => simpa [firstSeenKeys, hc, hp] using ih seen
        | some p =>
          obtain ⟨hfresh, hnd⟩ := ih (c :: seen)
          simp only [firstSeenKeys, if_neg hc, hp]
          constructor
          · intro x hx
            rcases List.mem_cons.mp hx with hx1 | hx2
            · rw [hx1]; exact hc
            · intro hxs
              exact hfresh x hx2 (List.mem_cons_of_mem c hxs)
          · refine List.nodup_cons.mpr ⟨?_, hnd⟩
            intro hmem
            exact hfresh c hmem (List.mem_cons_self c seen)

/-- The kept keys occur in first-seen order: they form a sublist of the
present entry strings. -/
theorem firstSeenKeys_sublist {P : Type} (parse : String → Option P) :
    ∀ (es : List (Option String)) (seen : List String),
      (firstSeenKeys parse seen es).Sublist es.reduceOption := by
  intro es
  induction es with
  | nil => intro seen; simp [firstSeenKeys]
  | cons e rest ih =>
    intro seen
    cases e with
    | none => simpa [firstSeenKeys] using ih seen
    | some c =>
      by_cases hc : c ∈ seen
      · simp only [firstSeenKeys, if_pos hc, List.reduceOption_cons_of_some]
        exact (ih seen).cons c
      · cases hp : parse c with
        | none =>
          simp only [firstSeenKeys, if_neg hc, hp,
            List.reduceOption_cons_of_some]
          exact (ih seen).cons c
        | some p =>
          simp only [firstSeenKeys, if_neg hc, hp,
            List.reduceOption_cons_of_some]
          exact (ih (c :: seen)).cons₂ c

/-- C3 (amended): over any single pass (two lists' entry streams
concatenated) and any parser, the accumulated values are exactly the parses
of the first-seen key list of raw entry strings; that key list is pairwise
distinct and in first-seen order (a sublist of the present entry strings);
and processing the concatenation equals threading the seen-set from the
first list into the second, so the deduplication keyed on the raw entry
string spans all lists of the pass. -/
theorem dedup_by_raw_key_across_lists {P : Type} (parse : String → Option P)
    (E1 E2 : List (Option String)) :
    (processEntries parse ([], []) (E1 ++ E2)).2
        = (firstSeenKeys parse [] (E1 ++ E2)).filterMap parse
    ∧ (firstSeenKeys parse [] (E1 ++ E2)).Nodup
    ∧ (firstSeenKeys parse [] (E1 ++ E2)).Sublist (E1 ++ E2).reduceOption
    ∧ processEntries parse ([], []) (E1 ++ E2)
        = processEntries parse (processEntries parse ([], []) E1) E2 := by
  refine ⟨?_, (firstSeenKeys_nodup parse (E1 ++ E2) []).2,
    firstSeenKeys_sublist parse (E1 ++ E2) [], ?_⟩
  · rw [processEntries_eq]
    simp
  · simp [processEntries, List.foldl_append]

/-- C3 counterexample: the fold keys on the raw entry string, not on the
canonical form. The full and the compressed spellings of one IPv6 prefix
are distinct strings that `netip.ParsePrefix` both accepts for the same
prefix, so both survive deduplication and the accumulated values are not
pairwise distinct by canonical string (and the canonical form was not the
dedup key, or the second spelling would have been dropped). -/
theorem dedup_not_by_canonical_string :
    "2001:db8:0:0:0:0:0:0/32" ≠ "2001:db8::/32"
    ∧ parsePfx6 "2001:db8:0:0:0:0:0:0/32"
        = some (Pfx6.mk [8193, 3512, 0, 0, 0, 0, 0, 0] 32)
    ∧ parsePfx6 "2001:db8::/32"
        = some (Pfx6.mk [8193, 3512, 0, 0, 0, 0, 0, 0] 32)
    ∧ canonStr6 (Pfx6.mk [8193, 3512, 0, 0, 0, 0, 0, 0] 32) = "2001:db8::/32"
    ∧ (processEntries parsePfx6 ([], [])
          [some "2001:db8:0:0:0:0:0:0/32", some "2001:db8::/32"]).2
        = [Pfx6.mk [8193, 3512, 0, 0, 0, 0, 0, 0] 32,
           Pfx6.mk [8193, 3512, 0, 0, 0, 0, 0, 0] 32]
    ∧ ¬ (((processEntries parsePfx6 ([], [])
            [some "2001:db8:0:0:0:0:0:0/32", some "2001:db8::/32"]).2).map
              canonStr6).Nodup := by
  refine ⟨by decide, rfl, rfl, rfl, rfl, ?_⟩
  intro hnd
  rw [show ((processEntries parsePfx6 ([], [])
      [some "2001:db8:0:0:0:0:0:0/32", some "2001:db8::/32"]).2).map canonStr6
      = ["2001:db8::/32", "2001:db8::/32"] from rfl] at hnd
  simp at hnd

/-- Allocation preserves the contents behind every live reference. -/
theorem readSlice_allocSlice_lt (m : SliceHeap) (v : List Pfx) (r : Nat)
    (h : r < m.arrays.length) :
    readSlice (allocSlice m v).2 r = readSlice m r := by
  simp [allocSlice, readSlice, List.getD_eq_getElem?_getD,
    List.getElem?_append_left h]

/-- C9: the read accessor returns a fresh reference whose contents equal
the current snapshot; overwriting the returned slice leaves the store's
slice unchanged; a later pass's fresh allocation leaves the returned slice
unchanged; and an install replaces only the store's reference without
touching any heap cell. -/
theorem read_returns_defensive_copy (s : StoreRef) (m : SliceHeap)
    (h : s.current < m.arrays.length) :
    readSlice (GetIPRanges s m).2 (GetIPRanges s m).1 = readSlice m s.current
    ∧ (GetIPRanges s m).1 ≠ s.current
    ∧ (∀ w, readSlice (writeSlice (GetIPRanges s m).2 (GetIPRanges s m).1 w)
          s.current = readSlice m s.current)
    ∧ (∀ v, readSlice (allocSlice (GetIPRanges s m).2 v).2 (GetIPRanges s m).1
          = readSlice (GetIPRanges s m).2 (GetIPRanges s m).1)
    ∧ ∀ r2, (installCurrent r2).current = r2 := by
  have hne : m.arrays.length ≠ s.current := Nat.ne_of_gt h
  refine ⟨?_, hne, ?_, ?_, fun r2 => rfl⟩
  · simp [GetIPRanges, allocSlice, readSlice, List.getD_eq_getElem?_getD,
      List.getElem?_concat_length]
  · intro w
    simp [GetIPRanges, allocSlice, readSlice, writeSlice,
      List.getD_eq_getElem?_getD, List.getElem?_set_ne hne,
      List.getElem?_append_left h]
  · intro v
    have hlt2 : (GetIPRanges s m).1 < (GetIPRanges s m).2.arrays.length := by
      show m.arrays.length < (m.arrays ++ [readSlice m s.current]).length
      simp
    exact readSlice_allocSlice_lt _ v _ hlt2

/-- Witness for `read_returns_defensive_copy` on a one-slice heap. -/
theorem read_returns_defensive_copy_witness :
    wStore.current < wHeap.arrays.length
    ∧ (readSlice (GetIPRanges wStore wHeap).2 (GetIPRanges wStore wHeap).1
          = readSlice wHeap wStore.current
       ∧ (GetIPRanges wStore wHeap).1 ≠ wStore.current
       ∧ (∀ w, readSlice
             (writeSlice (GetIPRanges wStore wHeap).2
               (GetIPRanges wStore wHeap).1 w) wStore.current
           = readSlice wHeap wStore.current)
       ∧ (∀ v, readSlice (allocSlice (GetIPRanges wStore wHeap).2 v).2
             (GetIPRanges wStore wHeap).1
           = readSlice (GetIPRanges wStore wHeap).2
               (GetIPRanges wStore wHeap).1)
       ∧ ∀ r2, (installCurrent r2).current = r2) :=
  ⟨by decide, read_returns_defensive_copy wStore wHeap (by decide)⟩

/-- The invariant holds initially. -/
theorem rwInv_init (pre post : List Pfx) (n : Nat) :
    RWInv pre post (rwInit pre n) := by
  refine ⟨Or.inl rfl, ?_⟩
  intro v hv
  rcases hv with hv | hv
  · have := List.eq_of_mem_replicate hv
    cases this
  · have := List.eq_of_mem_replicate hv
    cases this

/-- Every interleaving step preserves the invariant. -/
theorem rwStep_preserves (pre post : List Pfx) (s s2 : RWSys)
    (hstep : RWStep post s s2) (hinv : RWInv pre post s) :
    RWInv pre post s2 := by
  obtain ⟨hcur, hread⟩ := hinv
  cases hstep with
  | wLock h1 h2 h3 => exact ⟨hcur, hread⟩
  | wAssign h1 => exact ⟨Or.inr rfl, hread⟩
  | wUnlock h1 => exact ⟨hcur, hread⟩
  | rSpawn =>
    refine ⟨hcur, ?_⟩
    intro v hv
    rcases hv with hv | hv <;> rcases List.mem_append.mp hv with hm | hm
    · exact hread v (Or.inl hm)
    · simp at hm
    · exact hread v (Or.inr hm)
    · simp at hm
  | rLock i h1 h2 =>
    refine ⟨hcur, ?_⟩
    intro v hv
    rcases hv with hv | hv <;> rcases List.mem_or_eq_of_mem_set hv with hm | hm
    · exact hread v (Or.inl hm)
    · cases hm
    · exact hread v (Or.inr hm)
    · cases hm
  | rRead i h1 =>
    refine ⟨hcur, ?_⟩
    intro v hv
    rcases hv with hv | hv <;> rcases List.mem_or_eq_of_mem_set hv with hm | hm
    · exact hread v (Or.inl hm)
    · cases hm; exact hcur
    · exact hread v (Or.inr hm)
    · cases hm
  | rUnlock i v0 h1 =>
    refine ⟨hcur, ?_⟩
    intro v hv
    rcases hv with hv | hv <;> rcases List.mem_or_eq_of_mem_set hv with hm | hm
    · exact hread v (Or.inl hm)
    · cases hm
    · exact hread v (Or.inr hm)
    · cases hm
      exact hread v0 (Or.inl (List.getElem?_mem h1))

/-- The invariant holds in every reachable state. -/
theorem rwReach_inv (pre post : List Pfx) (n : Nat) (s : RWSys)
    (h : RWReach pre post n s) : RWInv pre post s := by
  induction h with
  | refl => exact rwInv_init pre post n
  | tail h1 h2 ih => exact rwStep_preserves pre post _ _ h2 ih

/-- C2: in every interleaving of concurrent readers with an install — the
installed value being swapped by a single reference assignment under the
exclusive-write/shared-read lock — every copy a reader has returned equals
the pre-install snapshot or the post-install snapshot exactly, never a
subset, superset or mixture of the two. -/
theorem atomic_snapshot_visibility (pre post : List Pfx) (n : Nat)
    (s : RWSys) (h : RWReach pre post n s) (v : List Pfx)
    (hv : RPhase.finished v ∈ s.readers) :
    v = pre ∨ v = post :=
  (rwReach_inv pre post n s h).2 v (Or.inr hv)

/-- Witness for `atomic_snapshot_visibility`: one reader locks, copies and
returns before any install step runs. -/
theorem atomic_snapshot_visibility_witness :
    RWReach [] [Pfx.mk 192 0 2 0 24] 1 rwFinal
    ∧ RPhase.finished ([] : List Pfx) ∈ rwFinal.readers
    ∧ (([] : List Pfx) = [] ∨ ([] : List Pfx) = [Pfx.mk 192 0 2 0 24]) := by
  have h1 : RWStep [Pfx.mk 192 0 2 0 24] (rwInit [] 1)
      ⟨[], .idle, [RPhase.reading], 1, false⟩ :=
    @RWStep.rLock [Pfx.mk 192 0 2 0 24] (rwInit [] 1) 0 rfl rfl
  have h2 : RWStep [Pfx.mk 192 0 2 0 24]
      (⟨[], .idle, [RPhase.reading], 1, false⟩ : RWSys)
      ⟨[], .idle, [RPhase.got []], 1, false⟩ :=
    @RWStep.rRead [Pfx.mk 192 0 2 0 24]
      ⟨[], .idle, [RPhase.reading], 1, false⟩ 0 rfl
  have h3 : RWStep [Pfx.mk 192 0 2 0 24]
      (⟨[], .idle, [RPhase.got []], 1, false⟩ : RWSys) rwFinal :=
    @RWStep.rUnlock [Pfx.mk 192 0 2 0 24]
      ⟨[], .idle, [RPhase.got []], 1, false⟩ 0 [] rfl
  have hreach : RWReach [] [Pfx.mk 192 0 2 0 24] 1 rwFinal :=
    Relation.ReflTransGen.tail
      (Relation.ReflTransGen.tail
        (Relation.ReflTransGen.tail Relation.ReflTransGen.refl h1) h2) h3
  have hmem : RPhase.finished ([] : List Pfx) ∈ rwFinal.readers := by decide
  exact ⟨hreach, hmem,
    atomic_snapshot_visibility [] [Pfx.mk 192 0 2 0 24] 1 rwFinal hreach []
      hmem⟩

/-- C6 counterexample: a tick is already pending when the stop signal is
delivered, and the `select` may still take the tick case — a refresh pass
runs and installs after the stop signal was delivered, refuting "no further
install ever occurs regardless of pending timer ticks". -/
theorem install_after_stop_delivery :
    SchedReach ⟨true, true, false, 0⟩
    ∧ (⟨true, true, false, 0⟩ : Sched).stopClosed = true
    ∧ SchedStep ⟨true, true, false, 0⟩ ⟨true, false, false, 1⟩
    ∧ (⟨true, false, false, 1⟩ : Sched).installs
        ≠ (⟨true, true, false, 0⟩ : Sched).installs := by
  refine ⟨?_, rfl, SchedStep.selectTick _ rfl rfl, by decide⟩
  have h1 : SchedStep schedInit ⟨false, true, false, 0⟩ :=
    SchedStep.tickFire schedInit rfl rfl
  have h2 : SchedStep (⟨false, true, false, 0⟩ : Sched)
      ⟨true, true, false, 0⟩ :=
    SchedStep.closeStop _ rfl
  exact Relation.ReflTransGen.tail
    (Relation.ReflTransGen.tail Relation.ReflTransGen.refl h1) h2

/-- C6 (amended): an install step happens only while a timer tick is
pending and the loop has not yet observed the stop signal; once the loop
takes the stop case and exits, no step changes the install count and the
loop stays exited — so installs after stop delivery are limited to tick
selections racing the stop case before the loop exits. -/
theorem no_install_after_loop_exit (s s2 : Sched) (h : SchedStep s s2) :
    (s.exited = true → s2.installs = s.installs ∧ s2.exited = true)
    ∧ (s2.installs ≠ s.installs →
        s.tickPending = true ∧ s.exited = false) := by
  cases h with
  | tickFire h1 h2 =>
    exact ⟨fun hx => ⟨rfl, hx⟩, fun hx => absurd rfl hx⟩
  | closeStop h1 =>
    exact ⟨fun hx => ⟨rfl, hx⟩, fun hx => absurd rfl hx⟩
  | selectTick h1 h2 =>
    exact ⟨fun hx => absurd hx (by simp [h1]), fun _ => ⟨h2, h1⟩⟩
  | selectStop h1 h2 =>
    exact ⟨fun hx => absurd hx (by simp [h1]), fun hx => absurd rfl hx⟩

/-- Witness for `no_install_after_loop_exit` at a concrete step from an
exited loop state. -/
theorem no_install_after_loop_exit_witness :
    SchedStep ⟨false, false, true, 3⟩ ⟨true, false, true, 3⟩
    ∧ (((⟨false, false, true, 3⟩ : Sched).exited = true →
          (⟨true, false, true, 3⟩ : Sched).installs
              = (⟨false, false, true, 3⟩ : Sched).installs
          ∧ (⟨true, false, true, 3⟩ : Sched).exited = true)
       ∧ ((⟨true, false, true, 3⟩ : Sched).installs
              ≠ (⟨false, false, true, 3⟩ : Sched).installs →
          (⟨false, false, true, 3⟩ : Sched).tickPending = true
          ∧ (⟨false, false, true, 3⟩ : Sched).exited = false)) :=
  ⟨SchedStep.closeStop _ rfl,
    no_install_after_loop_exit _ _ (SchedStep.closeStop _ rfl)⟩

end CFOriginPL
